import Mathlib

/-!
Verification of the MIG (Mozilla InvestiGator) core against its specification.

This file gives a shallow embedding, in Lean 4, of the parts of the MIG
code base that the specification's claims are about:

* the `mig.Action` data type, its canonical string, `Validate`,
  `VerifySignatures` and `VerifyACL` (src/unnamed/part_012),
* `GenID` (src/unnamed/part_012 and src/src/mig/action.go),
* `Sign`/`deArmor` (src/src/mig/pgp/sign/sign.go),
* the store operations `SetupRunnableActions` and `GetActionCounters`
  (src/database/actions.go),
* the heartbeat upload handler (src/unnamed/part_001),
* `ManifestResponse.VerifySignatures` (src/manifest.go).

External collaborators (the openpgp library, Postgres) and the few
repository symbols whose definitions are not part of the sources at hand
(`verifyPermission` and the `ACL` types, `pgp.Verify`,
`pgp.GetFingerprintFromSignature`, `mig.ActionCounters` and the command
status constants) are modelled from the specification's words; each such
definition carries a doc comment saying so.

Machine integers are modelled as `Nat`/`Int` with explicit wrapping where
overflow matters, Go's `float64` arithmetic as exact round-to-nearest-even
rounding on naturals, fallible Go functions as `Except`, and Go interface
collaborators as explicit function parameters (oracles).
-/

namespace Mig

/- ===================== Go time.Time (UTC) ===================== -/

/-- Model of Go `time.Time` restricted to the UTC location: `sec` is the
unix timestamp in seconds and `nsec` the nanosecond part of the instant. -/
structure GoTime where
  sec : Int
  nsec : Nat
  deriving Repr, DecidableEq

/-- Go `t.After(u)`: `t` is strictly later than `u`. -/
def GoTime.After (t u : GoTime) : Bool :=
  decide (u.sec < t.sec ∨ (t.sec = u.sec ∧ u.nsec < t.nsec))

/-- Civil date from a count of days since 1970-01-01 (Hinnant's
`civil_from_days` algorithm, as used by Go's `absDate`): returns
`(year, month, day)`. -/
def civilFromDays (z0 : Int) : Int × Nat × Nat :=
  let z : Int := z0 + 719468
  let era : Int := (if 0 ≤ z then z else z - 146096) / 146097
  let doe : Nat := (z - era * 146097).toNat
  let yoe : Nat := (doe - doe / 1460 + doe / 36524 - doe / 146096) / 365
  let y : Int := (yoe : Int) + era * 400
  let doy : Nat := doe - (365 * yoe + yoe / 4 - yoe / 100)
  let mp : Nat := (5 * doy + 2) / 153
  let d : Nat := doy - (153 * mp + 2) / 5 + 1
  let m : Nat := if mp < 10 then mp + 3 else mp - 9
  (if m ≤ 2 then y + 1 else y, m, d)

/-- Left-pad a string with zeros to width `w`. -/
def padLeftZeros (s : String) (w : Nat) : String :=
  if s.length < w then String.mk (List.replicate (w - s.length) '0') ++ s else s

def pad2 (n : Nat) : String := padLeftZeros (toString n) 2

def pad4 (y : Int) : String := padLeftZeros (toString y) 4

/-- Go's rendering of the fractional second for the `.999999999` layout
element: empty when zero, otherwise a dot followed by the nanoseconds with
trailing zeros removed. -/
def fracNanos (nsec : Nat) : String :=
  if nsec = 0 then "" else
    let s9 := padLeftZeros (toString nsec) 9
    "." ++ String.mk (((s9.toList.reverse).dropWhile (· = '0')).reverse)

/-- Days since the unix epoch of the instant (floor division, as Go's
internal absolute-time computation does). -/
def GoTime.days (t : GoTime) : Int := Int.ediv t.sec 86400

/-- Second of the day of the instant. -/
def GoTime.sod (t : GoTime) : Nat := (Int.emod t.sec 86400).toNat

/-- The `YYYY-MM-DD` part of a rendered instant. -/
def GoTime.dateStr (t : GoTime) : String :=
  let c := civilFromDays t.days
  pad4 c.1 ++ "-" ++ pad2 c.2.1 ++ "-" ++ pad2 c.2.2

/-- The `HH:MM:SS` part of a rendered instant. -/
def GoTime.clockStr (t : GoTime) : String :=
  pad2 (t.sod / 3600) ++ ":" ++ pad2 (t.sod % 3600 / 60) ++ ":" ++ pad2 (t.sod % 60)

/-- Go `time.Time.String()` for a UTC instant: layout
`2006-01-02 15:04:05.999999999 -0700 MST`, which for UTC renders as
`YYYY-MM-DD HH:MM:SS[.fraction] +0000 UTC`. -/
def GoTime.goString (t : GoTime) : String :=
  t.dateStr ++ " " ++ t.clockStr ++ fracNanos t.nsec ++ " +0000 UTC"

/-- Go `time.RFC3339Nano` formatting of a UTC instant:
`YYYY-MM-DDTHH:MM:SS[.fraction]Z`. -/
def GoTime.rfc3339Nano (t : GoTime) : String :=
  t.dateStr ++ "T" ++ t.clockStr ++ fracNanos t.nsec ++ "Z"

/- ===================== Go JSON encoding ===================== -/

/-- An opening brace character, written as a string. -/
def lbr : String := String.singleton (Char.ofNat 123)

/-- A closing brace character, written as a string. -/
def rbr : String := String.singleton (Char.ofNat 125)

/-- A single-quote (apostrophe) character, written as a string. -/
def squote : String := String.singleton (Char.ofNat 39)

/-- JSON values, as decoded by Go into `interface{}`; numbers are
restricted to integers (enough for the operations of the claims). -/
inductive Jval where
  | null
  | bool (b : Bool)
  | num (n : Int)
  | str (s : String)
  | arr (elems : List Jval)
  | obj (fields : List (String × Jval))
  deriving Inhabited

def hexDigit (n : Nat) : Char :=
  if n < 10 then Char.ofNat (48 + n) else Char.ofNat (97 + (n - 10))

/-- Go `encoding/json` escaping of one character inside a string literal
(including the default HTML escaping of `<`, `>`, `&`). -/
def jsonEscapeChar (c : Char) : String :=
  if c = '"' then "\\\"" else
  if c = '\\' then "\\\\" else
  if c = '\n' then "\\n" else
  if c = '\r' then "\\r" else
  if c = '\t' then "\\t" else
  if c = '<' then "\\u003c" else
  if c = '>' then "\\u003e" else
  if c = '&' then "\\u0026" else
  if c.toNat < 32 then
    "\\u00" ++ String.mk [hexDigit (c.toNat / 16), hexDigit (c.toNat % 16)]
  else String.singleton c

/-- Go `encoding/json` rendering of a string literal. -/
def jsonQuote (s : String) : String :=
  "\"" ++ String.join (s.toList.map jsonEscapeChar) ++ "\""

mutual
/-- Go `encoding/json` rendering of a decoded JSON value. Object fields
are rendered in the order of the field list (Go sorts map keys when
marshalling; an object decoded and re-encoded by Go is represented here
with its fields already in sorted key order). -/
def Jval.render : Jval → String
  | .null => "null"
  | .bool true => "true"
  | .bool false => "false"
  | .num n => toString n
  | .str s => jsonQuote s
  | .arr es => "[" ++ String.intercalate "," (Jval.renderList es) ++ "]"
  | .obj fs => lbr ++ String.intercalate "," (Jval.renderFields fs) ++ rbr

def Jval.renderList : List Jval → List String
  | [] => []
  | v :: vs => v.render :: Jval.renderList vs

def Jval.renderFields : List (String × Jval) → List String
  | [] => []
  | (k, v) :: fs => (jsonQuote k ++ ":" ++ v.render) :: Jval.renderFields fs
end

/- ===================== mig.Action ===================== -/

/-- Type `mig.Operation` (src/unnamed/part_012): an operation maps to an agent
module; `Parameters` is the decoded JSON value of the `parameters` field. -/
structure Operation where
  Module : String
  Parameters : Jval

/-- Go `json.Marshal` of one `mig.Operation` (struct fields in order, with
their JSON tags `module` and `parameters`). -/
def jsonOfOperation (op : Operation) : String :=
  lbr ++ "\"module\":" ++ jsonQuote op.Module ++ ",\"parameters\":"
      ++ op.Parameters.render ++ rbr

/-- Go `json.Marshal` of the `[]mig.Operation` slice; a nil slice
(modelled as `none`) marshals to `null`. -/
def jsonOfOperations : Option (List Operation) → String
  | none => "null"
  | some ops => "[" ++ String.intercalate "," (ops.map jsonOfOperation) ++ "]"

/-- Type `mig.Action` (src/unnamed/part_012), restricted to the fields read by
the functions under verification (`String`, `Validate`, `VerifySignatures`,
`VerifyACL`). `Operations = none` models a nil Go slice (a decoded action
whose JSON had no `operations` key), `some []` an empty non-nil slice. -/
structure Action where
  Name : String
  Target : String
  ValidFrom : GoTime
  ExpireAfter : GoTime
  Operations : Option (List Operation)
  PGPSignatures : List String
  SyntaxVersion : Nat

/-- Method `Action.String()` (src/unnamed/part_012 lines 179-189): concatenates
action components into the canonical string that gets signed. The Go
function also returns the error of `json.Marshal`, which is ignored here
because the marshalling of `[]Operation` is total in this model. -/
def Action.string (a : Action) : String :=
  "name=" ++ a.Name ++ "; "
    ++ "target=" ++ a.Target ++ "; "
    ++ "validfrom=" ++ a.ValidFrom.goString ++ "; "
    ++ "expireafter=" ++ a.ExpireAfter.goString ++ "; "
    ++ "operations=" ++ squote ++ jsonOfOperations a.Operations ++ squote ++ ";"

/-- The canonical string as the specification's words describe it
(spec.md section on the canonical string of an action): concatenation of
`name=<N>; target=<T>; validfrom=<ISO>; expireafter=<ISO>;
operations=<JSON of operations>;` with the two instants rendered as
RFC3339 nanoseconds and no other characters around the operations JSON.
This definition exists to be compared with `Action.string`, the
definition translated from the source. -/
def Action.specCanonicalString (a : Action) : String :=
  "name=" ++ a.Name ++ "; "
    ++ "target=" ++ a.Target ++ "; "
    ++ "validfrom=" ++ a.ValidFrom.rfc3339Nano ++ "; "
    ++ "expireafter=" ++ a.ExpireAfter.rfc3339Nano ++ "; "
    ++ "operations=" ++ jsonOfOperations a.Operations ++ ";"

/-- Method `Action.Validate` (src/unnamed/part_012 lines 128-157): syntax check of
a received action. Effectful input `time.Now()` is the explicit parameter
`now`. The checks run in source order and the first failing one yields its
error. -/
def Action.Validate (a : Action) (now : GoTime) : Except String Unit :=
  if a.Name = "" then .error "Action.Name is empty. Expecting string." else
  if a.Target = "" then .error "Action.Target is empty. Expecting string." else
  if a.SyntaxVersion ≠ 2 then .error "Wrong Syntax Version integer. Expection version 2." else
  if a.ValidFrom.goString = "" then .error "Action.ValidFrom is empty. Expecting string." else
  if a.ExpireAfter.goString = "" then .error "Action.ExpireAfter is empty. Expecting string." else
  if a.ValidFrom.After a.ExpireAfter then .error "Action.ExpireAfter is set before Action.ValidFrom." else
  if now.After a.ExpireAfter then .error "Action.ExpireAfter is passed. Action has expired." else
  if a.Operations.isNone then .error "Action.Operations is nil. Expecting string." else
  if a.PGPSignatures.length < 1 then .error "Action.PGPSignatures is empty. Expecting array of strings." else
  .ok ()

/-- The loop of `Action.VerifySignatures`: check each signature with
`verify.Verify(astr, sig, keyring)`; a verification error or an invalid
signature aborts with an error. `verify` is the oracle modelling the
external `mig/pgp/verify.Verify` over a fixed keyring. -/
def verifySigsLoop (verify : String → String → Except String Bool) (astr : String) :
    List String → Except String Unit
  | [] => .ok ()
  | sig :: rest =>
    match verify astr sig with
    | .error _ => .error "Failed to verify PGP Signature"
    | .ok false => .error "Invalid PGP Signature"
    | .ok true => verifySigsLoop verify astr rest

/-- Method `Action.VerifySignatures` (src/unnamed/part_012 lines 161-176):
verifies every signature of the action against the canonical string.
Modelled from the spec: `verify.Verify(data, signature, keyring)` is not
among the sources; it is the oracle parameter `verify`, returning whether
the signature on `data` is valid under the keyring, or an error. -/
def Action.VerifySignatures (a : Action)
    (verify : String → String → Except String Bool) : Except String Unit :=
  verifySigsLoop verify a.string a.PGPSignatures

/-- Function `validateAction` (src/unnamed/part_007 lines 298-320): runs
`a.Validate()` then `a.VerifySignatures(pubring)`; the first error aborts.
(The failure to open the pubring file, an environment error, is not
modelled.) -/
def validateAction (a : Action) (now : GoTime)
    (verify : String → String → Except String Bool) : Except String Unit :=
  match a.Validate now with
  | .error e => .error e
  | .ok _ => a.VerifySignatures verify

/- ===================== ACL evaluation ===================== -/

/-- Modelled from the spec: an ACL investigator entry
`{fingerprint, weight}` (the `ACLInvestigator` type is not among the
sources; only its consumer `VerifyACL` is). -/
structure ACLInvestigator where
  Fingerprint : String
  Weight : Int

/-- Modelled from the spec: a per-module rule
`{minimumWeight, investigators[{fingerprint, weight}]}`; the
investigators map from investigator name to entry is an association
list. -/
structure PermissionRule where
  MinimumWeight : Int
  Investigators : List (String × ACLInvestigator)

/-- A `Permission` is a Go map from a rule name (module name or
`default`) to its rule, modelled as an association list. -/
abbrev Permission := List (String × PermissionRule)

/-- An `ACL` is a list of permissions, as ranged over by `VerifyACL`. -/
abbrev ACL := List Permission

/-- Sum of the weights of the rule investigators whose fingerprint
matches a verified signer. -/
def signersWeight (invs : List (String × ACLInvestigator)) (fingerprints : List String) : Int :=
  (invs.filterMap (fun p =>
    if fingerprints.contains p.2.Fingerprint then some p.2.Weight else none)).sum

/-- Modelled from the spec: `verifyPermission` (called by `VerifyACL` but
not among the sources). Look up the rule named `permName` in the
permission map; a missing rule denies authorization (in particular the
zero-value permission passed when no `default` rule exists denies);
otherwise the operation is authorized iff the summed weight of matching
investigators is at least the rule minimum weight. -/
def verifyPermission (operation : Operation) (permName : String)
    (permission : Permission) (fingerprints : List String) : Except String Unit :=
  match permission.lookup permName with
  | none => .error ("Permission denied for operation " ++ operation.Module)
  | some rule =>
      if rule.MinimumWeight ≤ signersWeight rule.Investigators fingerprints then .ok ()
      else .error ("Permission denied for operation " ++ operation.Module)

/-- The loop of `VerifyACL` that collects, in order, the signer
fingerprint of each signature; the first failure aborts.
`getFp` is the oracle modelling the external
`pgp.GetFingerprintFromSignature(astr, sig, keyring)`. -/
def collectFingerprints (getFp : String → String → Except String String) (astr : String) :
    List String → Except String (List String)
  | [] => .ok []
  | sig :: rest =>
    match getFp astr sig with
    | .error e => .error ("Failed to retrieve fingerprint from signatures: " ++ e)
    | .ok fp => (collectFingerprints getFp astr rest).map (fp :: .)

/-- The two nested loops of `VerifyACL` that search the ACL for the first
permission containing a rule named after the operation module. -/
def findModulePermission : ACL → String → Option Permission
  | [], _ => none
  | perm :: rest, m =>
      if (perm.map Prod.fst).contains m then some perm else findModulePermission rest m

/-- The `default` lookup loop of `VerifyACL`: the Go `break` leaves only
the inner loop, so the assignment `defaultPerm = permission` is repeated
and the LAST permission of the ACL containing a `default` rule wins. -/
def findDefaultPermission (acl : ACL) : Option Permission :=
  (acl.filter (fun perm => (perm.map Prod.fst).contains "default")).getLast?

/-- Method `Action.VerifyACL` (src/unnamed/part_012 lines 197-237), translated
faithfully INCLUDING the `return` statements inside the first iteration of
the loop over `a.Operations`: whichever branch is taken, the function
returns the verification result of the FIRST operation and never examines
the remaining operations. An action without operations verifies
trivially. -/
def Action.VerifyACL (a : Action) (acl : ACL)
    (getFp : String → String → Except String String) : Except String Unit :=
  match collectFingerprints getFp a.string a.PGPSignatures with
  | .error e => .error e
  | .ok fingerprints =>
    match a.Operations.getD [] with
    | [] => .ok ()
    | operation :: _ =>
      match findModulePermission acl operation.Module with
      | some permission => verifyPermission operation operation.Module permission fingerprints
      | none => verifyPermission operation "default"
          ((findDefaultPermission acl).getD []) fingerprints

/-- The ACL evaluation as the specification's words state it: an operation
is checked against its module-specific rule when one exists and otherwise
against the `default` rule; it is authorized iff the summed weight of the
rule investigators whose fingerprint matches a verified signer reaches the
rule minimum weight; a missing `default` rule denies. This definition
exists to be compared with `Action.VerifyACL`. -/
def specOperationAuthorized (acl : ACL) (fingerprints : List String) (op : Operation) : Bool :=
  let rule : Option PermissionRule :=
    match findModulePermission acl op.Module with
    | some perm => perm.lookup op.Module
    | none => ((findDefaultPermission acl).getD []).lookup "default"
  match rule with
  | none => false
  | some r => decide (r.MinimumWeight ≤ signersWeight r.Investigators fingerprints)

/-- Spec side of claim C1: the action is authorized iff EVERY operation is
authorized. -/
def specActionAuthorized (a : Action) (acl : ACL) (fingerprints : List String) : Bool :=
  (a.Operations.getD []).all (specOperationAuthorized acl fingerprints)

/- ===================== GenID ===================== -/

/-- Number of halvings needed to bring `m` below `2^53` (the excess of
`m`'s bit length over the 53 bits of an IEEE-754 binary64 significand).
`fuel` only bounds the structural recursion; 200 is ample for every value
in use. -/
def f64shiftAux : Nat → Nat → Nat
  | 0, _ => 0
  | fuel + 1, m => if m < 2 ^ 53 then 0 else f64shiftAux fuel (m / 2) + 1

/-- Round a natural number to the value of the nearest IEEE-754 binary64
double (round to nearest, ties to even). Exact for `n < 2^53`; no
overflow occurs for the magnitudes in use (far below `2^1024`). -/
def roundF64 (n : Nat) : Nat :=
  let shift := f64shiftAux 200 n
  if shift = 0 then n else
    let q := n / 2 ^ shift
    let r := n % 2 ^ shift
    let half := 2 ^ (shift - 1)
    let q2 := if half < r ∨ (r = half ∧ q % 2 = 1) then q + 1 else q
    q2 * 2 ^ shift

/-- Function `GenID` (src/unnamed/part_012 lines 105-118) with the effectful inputs
explicit: `ts` is `time.Now().Unix()` and `sum` is the CRC32 digest
`h.Sum32()` of the RFC3339-nano timestamp concatenated with the random
number. The Go code computes `uid := uint64(ts) << 32` (wrapping modulo
`2^64`) and returns `float64(uid) + float64(sum)`: two conversions to
`float64` and one `float64` addition, each modelled by IEEE
round-to-nearest-even on the exact integer values. -/
def GenID (ts sum : Nat) : Nat :=
  let uid := (ts * 2 ^ 32) % 2 ^ 64
  roundF64 (roundF64 uid + roundF64 sum)

/-- Function `GenID` (src/src/mig/action.go lines 66-78): the `uint64` variant,
`id := uint64(ts) << 32; id += uint64(crc)`, wrapping modulo `2^64`. -/
def GenIDuint64 (ts sum : Nat) : Nat :=
  ((ts * 2 ^ 32) % 2 ^ 64 + sum) % 2 ^ 64

/- ===================== Store: runnable actions ===================== -/

/-- A row of the `actions` table, restricted to the columns that the
`SetupRunnableActions` statement filters on and updates (`status`,
`validfrom`, `expireafter`) plus the identifying columns. -/
structure ActionRow where
  id : Int
  name : String
  target : String
  validfrom : GoTime
  expireafter : GoTime
  status : String
  deriving Repr, DecidableEq

/-- The WHERE clause of `SetupRunnableActions`:
`status='pending' AND validfrom < NOW() AND expireafter > NOW()`. -/
def runnableCond (now : GoTime) (r : ActionRow) : Bool :=
  r.status == "pending" && now.After r.validfrom && r.expireafter.After now

/-- The SET clause of `SetupRunnableActions`. -/
def markScheduled (r : ActionRow) : ActionRow :=
  { r with status := "scheduled" }

/-- Method `DB.SetupRunnableActions` (src/database/actions.go lines 425-467),
with the store explicit: the single SQL statement
`UPDATE actions SET status='scheduled' WHERE status='pending' AND
validfrom < NOW() AND expireafter > NOW() RETURNING ...` is modelled as
one atomic step on the list of rows. It returns the updated store and
the returned rows — Postgres `RETURNING` yields the post-update rows, so
every returned row carries status `scheduled`. -/
def SetupRunnableActions (now : GoTime) (store : List ActionRow) :
    List ActionRow × List ActionRow :=
  (store.map (fun r => if runnableCond now r then markScheduled r else r),
   (store.filter (runnableCond now)).map markScheduled)

/- ===================== Store: action counters ===================== -/

/-- Modelled from the spec: command status constant `mig.StatusSent` (the
constants are not among the sources; the spec lists
`status ∈ `\x7bsent, success, cancelled, expired, failed, timeout\x7d`). -/
def StatusSent : String := "sent"

/-- Modelled from the spec: command status constant `mig.StatusSuccess`. -/
def StatusSuccess : String := "success"

/-- Modelled from the spec: command status constant `mig.StatusCancelled`. -/
def StatusCancelled : String := "cancelled"

/-- Modelled from the spec: command status constant `mig.StatusExpired`. -/
def StatusExpired : String := "expired"

/-- Modelled from the spec: command status constant `mig.StatusFailed`. -/
def StatusFailed : String := "failed"

/-- Modelled from the spec: command status constant `mig.StatusTimeout`. -/
def StatusTimeout : String := "timeout"

/-- Modelled from the spec: `mig.ActionCounters` (not among the sources);
the spec lists the counters
`sent, returned, done, cancelled, failed, timeout, expired, success,
inflight`. -/
structure ActionCounters where
  Sent : Nat := 0
  Returned : Nat := 0
  Done : Nat := 0
  Cancelled : Nat := 0
  Failed : Nat := 0
  TimeOut : Nat := 0
  Expired : Nat := 0
  Success : Nat := 0
  InFlight : Nat := 0
  deriving Repr, DecidableEq

/-- Number of commands of the action having status `s` (the
`COUNT(id) ... GROUP BY status` count of group `s`). -/
def countStatus (statuses : List String) (s : String) : Nat :=
  (statuses.filter (fun t => t == s)).length

/-- The result set of `SELECT DISTINCT(status), COUNT(id) FROM commands
WHERE actionid = $1 GROUP BY status`: one row per distinct status among
the action's commands, with the count of commands in that status. -/
def counterRows (statuses : List String) : List (String × Nat) :=
  statuses.dedup.map (fun s => (s, countStatus statuses s))

/-- The body of the `rows.Next()` loop of `GetActionCounters`
(src/database/actions.go lines 302-334): the switch over the row's
status. -/
def applyCounterRow (c : ActionCounters) (row : String × Nat) : ActionCounters :=
  let count := row.2
  if row.1 = StatusSent then
    { c with InFlight := count, Sent := c.Sent + count } else
  if row.1 = StatusSuccess then
    { c with Success := count, Done := c.Done + count, Sent := c.Sent + count } else
  if row.1 = StatusCancelled then
    { c with Cancelled := count, Done := c.Done + count, Sent := c.Sent + count } else
  if row.1 = StatusExpired then
    { c with Expired := count, Done := c.Done + count, Sent := c.Sent + count } else
  if row.1 = StatusFailed then
    { c with Failed := count, Done := c.Done + count, Sent := c.Sent + count } else
  if row.1 = StatusTimeout then
    { c with TimeOut := count, Done := c.Done + count, Sent := c.Sent + count } else
  c

/-- Method `DB.GetActionCounters` (src/database/actions.go lines 292-339) with
the multiset of the action's command statuses explicit. -/
def GetActionCounters (statuses : List String) : ActionCounters :=
  (counterRows statuses).foldl applyCounterRow (ActionCounters.mk 0 0 0 0 0 0 0 0 0)

/-- The five terminal command statuses (those the counter switch adds to
`Done`). -/
def terminalStatuses : Finset String :=
  {StatusSuccess, StatusCancelled, StatusExpired, StatusFailed, StatusTimeout}

/- ===================== pgp sign / deArmor ===================== -/

/-- Character lists stand for the Go strings handled by `deArmor`. -/
abbrev Chars := List Char

/-- Go `strings.Index`: the first index at which `pat` occurs in `s`
(`none` for Go's `-1`). -/
def findSub (pat : Chars) : Chars → Option Nat
  | [] => if pat.isPrefixOf ([] : Chars) then some 0 else none
  | c :: rest =>
      if pat.isPrefixOf (c :: rest) then some 0
      else (findSub pat rest).map (. + 1)

/-- Whether the characters `a` then `b` occur adjacently somewhere in a
character list (the two-character window that every marker occurrence
must open with). -/
def hasPair (a b : Char) : Chars → Bool
  | x :: y :: rest => (x == a && y == b) || hasPair a b (y :: rest)
  | _ => false

/-- The blank-line marker `\n\n` searched by `deArmor`. -/
def nnMark : Chars := ['\n', '\n']

/-- The footer marker `\n-----` searched by `deArmor`. -/
def dashMark : Chars := ['\n', '-', '-', '-', '-', '-']

/-- Function `deArmor` (src/src/mig/pgp/sign/sign.go lines 83-93): find the first
blank line (`\n\n`) and the first `\n-----`; error when either marker is
absent; slice the text between them (`sig[index1+2 : index2]`) and delete
every newline from the slice. (On degenerate inputs where the footer
marker precedes the blank line Go would panic on the slice bounds; the
truncated subtraction here returns the empty slice instead — no
well-formed armored text reaches that case.) -/
def deArmor (sig : Chars) : Except String Chars :=
  match findSub nnMark sig, findSub dashMark sig with
  | some i1, some i2 =>
      .ok (((sig.drop (i1 + 2)).take (i2 - (i1 + 2))).filter (fun c => c ≠ '\n'))
  | _, _ => .error "Failed to parse signature from gpg."

/-- The armor header line of a PGP signature. -/
def beginLine : Chars := "-----BEGIN PGP SIGNATURE-----".toList

/-- Modelled from the spec: the ASCII-armored detached signature written
by the external `openpgp.ArmoredDetachSign` — the armor header line, an
optional armor headers block `hdr` (its lines each ending in a newline),
a blank line, the base64 `payload` with its inner newlines (including the
final CRC line), and the armor footer. -/
def armoredSig (hdr payload : Chars) : Chars :=
  beginLine ++ ['\n'] ++ hdr ++ ['\n'] ++ payload
    ++ dashMark ++ "END PGP SIGNATURE-----\n".toList

/-- Function `Sign` (src/src/mig/pgp/sign/sign.go lines 22-79) with the keyring
lookup and the external openpgp signing abstracted away: the armored
signature text openpgp produced for the data under the chosen key is the
parameter, and `Sign` returns its `deArmor`. -/
def Sign (armored : Chars) : Except String Chars := deArmor armored

/- ===================== heartbeat upload ===================== -/

/-- Total nanoseconds of an instant. -/
def GoTime.totalNanos (t : GoTime) : Int := t.sec * 1000000000 + t.nsec

/-- Instant from total nanoseconds. -/
def GoTime.ofNanos (n : Int) : GoTime :=
  { sec := Int.ediv n 1000000000, nsec := (Int.emod n 1000000000).toNat }

/-- Go `t.Add(d)` for a duration of `d` nanoseconds. -/
def GoTime.Add (t : GoTime) (d : Int) : GoTime := GoTime.ofNanos (t.totalNanos + d)

/-- Constant `timeToExpireHeartbeat = 5 * time.Minute` (src/unnamed/part_001
line 19), in nanoseconds. -/
def timeToExpireHeartbeat : Int := 5 * 60 * 1000000000

/-- Type `Environment` (src/unnamed/part_001 lines 49-59). -/
structure Environment where
  Init : String
  Ident : String
  OS : String
  Arch : String
  IsProxied : Bool
  Proxy : String
  Addresses : List String
  PublicIP : String
  Modules : List String
  deriving Repr, DecidableEq

/-- Type `Tag` (src/unnamed/part_001 lines 62-65). -/
structure HbTag where
  Name : String
  Value : String
  deriving Repr, DecidableEq

/-- Type `Heartbeat` (src/unnamed/part_001 lines 68-77). -/
structure Heartbeat where
  Name : String
  Mode : String
  Version : String
  PID : Nat
  QueueLoc : String
  StartTime : GoTime
  Environment : Environment
  Tags : List HbTag
  deriving Repr, DecidableEq

/-- Method `Heartbeat.validate` (src/unnamed/part_001 lines 87-133), reduced to
its accept/reject outcome (the error message text enumerates Go maps
whose iteration order is not deterministic; whether SOME error is
returned is). Returns true iff every check passes: all ten required
fields non-zero, start time not expired, mode well-formed, name and
version not too long (`len` in Go counts bytes). -/
def Heartbeat.validateOk (hb : Heartbeat) (now : GoTime) : Bool :=
  let missing : Bool :=
    hb.Name == "" || hb.Mode == "" || hb.Version == "" || hb.QueueLoc == "" ||
    hb.PID == 0 || hb.Environment.Init == "" || hb.Environment.Ident == "" ||
    hb.Environment.OS == "" || hb.Environment.Arch == "" || hb.Environment.PublicIP == ""
  let isExpired : Bool := (now.Add (-timeToExpireHeartbeat)).After hb.StartTime
  let hasBadMode : Bool := hb.Mode != "" && hb.Mode != "daemon" && hb.Mode != "checkin"
  let nameTooLong : Bool := decide (1024 < hb.Name.utf8ByteSize)
  let versionTooLong : Bool := decide (128 < hb.Version.utf8ByteSize)
  !missing && !isExpired && !hasBadMode && !nameTooLong && !versionTooLong

/-- Method `UploadHeartbeat.ServeHTTP` (src/unnamed/part_001 lines 135-177) with
the JSON decoding result, the authenticator and the persistence layer
explicit. Returns the HTTP status code of the response (200 for a
response whose header was never explicitly set) and the heartbeat handed
to `PersistHeartbeat`, `none` when persistence was never attempted. -/
def ServeHTTP (decoded : Option Heartbeat) (authOk : Heartbeat → Bool)
    (persistOk : Heartbeat → Bool) (now : GoTime) : Nat × Option Heartbeat :=
  match decoded with
  | none => (400, none)
  | some hb =>
    if !hb.validateOk now then (400, none)
    else if !authOk hb then (401, none)
    else if !persistOk hb then (500, some hb)
    else (200, some hb)

/- ===================== manifest response ===================== -/

/-- Type `ManifestEntry` (src/manifest.go lines 280-283). -/
structure ManifestEntry where
  Name : String
  SHA256 : String
  deriving Repr, DecidableEq

/-- Type `ManifestResponse` (src/manifest.go lines 246-249). `Entries = none`
models a nil Go slice (which marshals to `null`). The signatures slice is
a plain list; after the method clears it to length zero it marshals as
`[]` (as a non-nil zero-length Go slice does). -/
structure ManifestResponse where
  Entries : Option (List ManifestEntry)
  Signatures : List String
  deriving Repr, DecidableEq

/-- Go `json.Marshal` of a `[]string` slice. -/
def jsonOfStrings (l : List String) : String :=
  "[" ++ String.intercalate "," (l.map jsonQuote) ++ "]"

/-- Go `json.Marshal` of one `ManifestEntry` (JSON tags `name`,
`sha256`). -/
def jsonOfManifestEntry (e : ManifestEntry) : String :=
  lbr ++ "\"name\":" ++ jsonQuote e.Name ++ ",\"sha256\":" ++ jsonQuote e.SHA256 ++ rbr

/-- Go `json.Marshal` of a `ManifestResponse` (JSON tags `entries`,
`signatures`). -/
def jsonOfManifestResponse (m : ManifestResponse) : String :=
  lbr ++ "\"entries\":"
    ++ (match m.Entries with
        | none => "null"
        | some es => "[" ++ String.intercalate "," (es.map jsonOfManifestEntry) ++ "]")
    ++ ",\"signatures\":" ++ jsonOfStrings m.Signatures ++ rbr

/-- The verification loop of `ManifestResponse.VerifySignatures`: count
the signatures that verify over `buf`, aborting with the partial count on
a verification error. `pgpVerify` is the oracle modelling the external
`pgp.Verify(buf, sig, keyring)`. -/
def countValidSigs (pgpVerify : String → String → Except String Bool) (buf : String) :
    List String → Nat → Nat × Option String
  | [], acc => (acc, none)
  | x :: rest, acc =>
    match pgpVerify buf x with
    | .error e => (acc, some e)
    | .ok true => countValidSigs pgpVerify buf rest (acc + 1)
    | .ok false => countValidSigs pgpVerify buf rest acc

/-- Method `ManifestResponse.VerifySignatures` (src/manifest.go lines 253-277):
copy the signatures out of the receiver, clear the receiver's Signatures
slice to length zero, marshal the cleared receiver to JSON, and count the
copied signatures that verify over that JSON. The method mutates its
receiver through a pointer, so the result carries the updated receiver
alongside the valid-signature count and the error, if any. -/
def ManifestResponse.VerifySignatures (m : ManifestResponse)
    (pgpVerify : String → String → Except String Bool) :
    ManifestResponse × Nat × Option String :=
  let sigs := m.Signatures
  let m2 := { m with Signatures := [] }
  let buf := jsonOfManifestResponse m2
  let r := countValidSigs pgpVerify buf sigs 0
  (m2, r.1, r.2)


/-- Whether an oracle verification result is a successful `true` (used to
state the count of valid signatures). -/
def isOkTrue (r : Except String Bool) : Bool :=
  match r with
  | .ok true => true
  | _ => false

/- ============== concrete instances used by claims and witnesses ============== -/

/-- A rule granting weight 1 to the investigator fingerprint `F00`. -/
def sampleRule : PermissionRule :=
  { MinimumWeight := 1, Investigators := [("Bob", { Fingerprint := "F00", Weight := 1 })] }

/-- An ACL with a module-specific rule for `file` and no `default` rule. -/
def sampleACL : ACL := [[("file", sampleRule)]]

/-- An action with TWO operations: the first (`file`) is authorized by its
module rule; the second (`memory`) has no module rule, and with no
`default` rule the specification denies it. -/
def sampleTwoOpAction : Action where
  Name := "x"
  Target := "t"
  ValidFrom := { sec := 0, nsec := 0 }
  ExpireAfter := { sec := 10, nsec := 0 }
  Operations := some [{ Module := "file", Parameters := Jval.null },
                      { Module := "memory", Parameters := Jval.null }]
  PGPSignatures := ["s"]
  SyntaxVersion := 2

/-- Fingerprint oracle under which the single signature resolves to the
fingerprint `F00`. -/
def sampleGetFp : String → String → Except String String := fun _ _ => .ok "F00"

/-- An action whose `PGPSignatures` list is empty. -/
def unsignedAction : Action where
  Name := "x"
  Target := "t"
  ValidFrom := { sec := 0, nsec := 0 }
  ExpireAfter := { sec := 10, nsec := 0 }
  Operations := some [{ Module := "file", Parameters := Jval.null }]
  PGPSignatures := []
  SyntaxVersion := 2

/-- A fixed evaluation instant. -/
def sampleNow : GoTime := { sec := 5, nsec := 0 }

/-- Signature oracle: exactly the signature `good` verifies. -/
def sampleVerify : String → String → Except String Bool := fun _ sig => .ok (sig == "good")

/-- A concrete action exercising the canonical-string rendering. -/
def c3Action : Action where
  Name := "ls"
  Target := "linux"
  ValidFrom := { sec := 1445000000, nsec := 0 }
  ExpireAfter := { sec := 1445003600, nsec := 0 }
  Operations := some [{ Module := "file", Parameters := Jval.obj [("path", Jval.str "/etc")] }]
  PGPSignatures := ["sig1"]
  SyntaxVersion := 2

/-- A runnable action row: pending and inside its validity window at
instant 50. -/
def runnableRow : ActionRow :=
  { id := 1, name := "a", target := "t", validfrom := { sec := 0, nsec := 0 },
    expireafter := { sec := 100, nsec := 0 }, status := "pending" }

/-- A non-runnable action row (already completed). -/
def doneRow : ActionRow :=
  { id := 2, name := "b", target := "t", validfrom := { sec := 0, nsec := 0 },
    expireafter := { sec := 100, nsec := 0 }, status := "completed" }

/-- A two-row store. -/
def sampleStore : List ActionRow := [runnableRow, doneRow]

/-- The instant at which the sample store is examined. -/
def rowNow : GoTime := { sec := 50, nsec := 0 }

/-- A heartbeat that fails validation (its name is empty). -/
def badHeartbeat : Heartbeat where
  Name := ""
  Mode := "daemon"
  Version := "1"
  PID := 1
  QueueLoc := "q"
  StartTime := { sec := 1000, nsec := 0 }
  Environment :=
    { Init := "systemd", Ident := "debian", OS := "linux", Arch := "amd64",
      IsProxied := false, Proxy := "", Addresses := ["10.0.0.1"],
      PublicIP := "1.2.3.4", Modules := ["file"] }
  Tags := []

/-- The instant at which the heartbeat upload is handled. -/
def hbNow : GoTime := { sec := 1000, nsec := 0 }

/-- An authenticator/persistence layer that accepts everything. -/
def acceptAll : Heartbeat → Bool := fun _ => true

/-- A manifest response carrying one good and one bad signature. -/
def sampleManifest : ManifestResponse :=
  { Entries := some [{ Name := "mig-agent", SHA256 := "ab" }], Signatures := ["g", "b"] }

/-- Signature oracle for the manifest: exactly the signature `g`
verifies. -/
def sampleManifestVerify : String → String → Except String Bool :=
  fun _ sig => .ok (sig == "g")

/-- A concrete armor headers block (one header line). -/
def c7hdr : Chars := "Version: GnuPG v1\n".toList

/-- A concrete base64 payload with inner newlines and a CRC line. -/
def c7payload : Chars := "QUJDRA\nRUZH\n=abcd".toList

/- ============================== the claims ============================== -/

/-- C1: the specification says `VerifyACL` succeeds iff EVERY operation of
the action is authorized (against its module rule, else `default`, a
missing `default` denying). The code loops over `a.Operations` but
returns inside the first iteration, so only the FIRST operation is ever
checked: for the sample action whose first operation is authorized and
whose second has no rule (and no `default` exists), `VerifyACL` succeeds
while the specification-side evaluation denies the action. -/
theorem verifyACL_only_checks_first_operation :
    sampleTwoOpAction.VerifyACL sampleACL sampleGetFp = .ok () ∧
    specActionAuthorized sampleTwoOpAction sampleACL ["F00"] = false :=
  ⟨rfl, rfl⟩

/-- The signature-checking loop succeeds iff every signature verifies. -/
theorem verifySigsLoop_ok_iff (verify : String → String → Except String Bool)
    (astr : String) (sigs : List String) :
    verifySigsLoop verify astr sigs = .ok () ↔
      ∀ sig ∈ sigs, verify astr sig = .ok true := by
  induction sigs with
  | nil => simp [verifySigsLoop]
  | cons s rest ih =>
    cases h : verify astr s with
    | error e => simp [verifySigsLoop, h]
    | ok b =>
      cases b with
      | false => simp [verifySigsLoop, h]
      | true => simp [verifySigsLoop, h, ih]

/-- An action with an empty signature list never passes `Validate`. -/
theorem validate_empty_sigs (a : Action) (now : GoTime)
    (h : a.PGPSignatures = []) : ∃ e, a.Validate now = .error e := by
  unfold Action.Validate
  split_ifs <;> simp_all

/-- C2: `VerifySignatures` returns nil only when every signature of the
action verifies against the canonical string; `Validate` errors whenever
the `PGPSignatures` list is empty; and `validateAction` (`Validate` then
`VerifySignatures`) errors for any action carrying a missing or invalid
signature. `verify` is the oracle for the external pgp verification. -/
theorem signature_gate (a : Action) (now : GoTime)
    (verify : String → String → Except String Bool) :
    (a.VerifySignatures verify = .ok () →
      ∀ sig ∈ a.PGPSignatures, verify a.string sig = .ok true) ∧
    (a.PGPSignatures = [] → ∃ e, a.Validate now = .error e) ∧
    ((a.PGPSignatures = [] ∨ ∃ sig ∈ a.PGPSignatures, verify a.string sig ≠ .ok true) →
      ∃ e, validateAction a now verify = .error e) := by
  refine ⟨fun h => (verifySigsLoop_ok_iff verify a.string a.PGPSignatures).mp h, ?_, ?_⟩
  · exact fun h => validate_empty_sigs a now h
  · intro h
    unfold validateAction
    cases hv : a.Validate now with
    | error e => exact ⟨e, rfl⟩
    | ok u =>
      rcases h with hempty | ⟨sig, hmem, hbad⟩
      · rcases validate_empty_sigs a now hempty with ⟨e, he⟩
        rw [hv] at he
        exact absurd he (by simp)
      · unfold Action.VerifySignatures
        cases hl : verifySigsLoop verify a.string a.PGPSignatures with
        | error e => exact ⟨e, rfl⟩
        | ok v =>
          exfalso
          have := (verifySigsLoop_ok_iff verify a.string a.PGPSignatures).mp (by
            cases v; exact hl) sig hmem
          exact hbad this

/-- Witness for C2 at a concrete input: the unsigned sample action fails
`Validate`. -/
theorem signature_gate_witness :
    ∃ e, Action.Validate unsignedAction sampleNow = .error e :=
  (signature_gate unsignedAction sampleNow sampleVerify).2.1 rfl

/-- C3 counterexample: at a concrete action, the canonical string the code
produces differs from the one the claim describes — the code renders the
two instants with Go `Time.String()` (not RFC3339 nanoseconds) and wraps
the operations JSON in single quotes. -/
theorem actionString_ne_claimed : c3Action.string ≠ c3Action.specCanonicalString := by
  decide

/-- C3 (amended): `a.String()` is exactly the concatenation
`name=<N>; target=<T>; validfrom=<V>; expireafter=<E>; operations='<J>';`
where `<V>`, `<E>` are the Go `Time.String()` renderings of the two
instants (layout `2006-01-02 15:04:05.999999999 -0700 MST`, not RFC3339)
and `<J>`, the stable JSON of the operations, is wrapped in single
quotes. -/
theorem actionString_layout (a : Action) :
    a.string = "name=" ++ a.Name ++ "; target=" ++ a.Target ++ "; validfrom="
      ++ a.ValidFrom.goString ++ "; expireafter=" ++ a.ExpireAfter.goString
      ++ "; operations=" ++ squote ++ jsonOfOperations a.Operations ++ squote ++ ";" := by
  apply String.ext
  simp only [Action.string, String.data_append, List.append_assoc]
  rfl

/-- C6: `GenID` of src/unnamed/part_012 computes `uid = unixtime << 32`
but returns `float64(uid) + float64(crc)`; at `ts = 1445000000`, `crc = 1`
the float64 rounding (10 excess bits at this magnitude) drops the low
bit: the returned value is NOT the exact 64-bit concatenation
`ts * 2^32 + crc` — which the `uint64` variant of `GenID` in
src/src/mig/action.go does return. -/
theorem genID_float64_loses_precision :
    GenID 1445000000 1 = 1445000000 * 2 ^ 32 ∧
    GenIDuint64 1445000000 1 = 1445000000 * 2 ^ 32 + 1 ∧
    GenID 1445000000 1 ≠ GenIDuint64 1445000000 1 :=
  ⟨by decide, by decide, by decide⟩

/-- Unfolding of the runnable-row condition. -/
theorem runnableCond_iff (now : GoTime) (r : ActionRow) :
    runnableCond now r = true ↔
      (r.status = "pending" ∧ now.After r.validfrom ∧ r.expireafter.After now) := by
  simp [runnableCond, Bool.and_eq_true, beq_iff_eq, and_assoc]

/-- C4: every row returned by `SetupRunnableActions` was pending with
`validfrom` before and `expireafter` after the instant of the call, every
returned row has status `scheduled`, every stored row meeting the three
conditions is returned (marked scheduled), and a row not meeting them is
kept unchanged in the store and is not among the returned rows (stated
for rows whose status is not already `scheduled`, since rows are compared
by value here). -/
theorem setupRunnableActions_spec (now : GoTime) (store : List ActionRow) :
    (∀ a ∈ (SetupRunnableActions now store).2, a.status = "scheduled") ∧
    (∀ a ∈ (SetupRunnableActions now store).2,
      ∃ r ∈ store,
        (r.status = "pending" ∧ now.After r.validfrom ∧ r.expireafter.After now) ∧
        a = markScheduled r) ∧
    (∀ r ∈ store, r.status = "pending" → now.After r.validfrom = true →
      r.expireafter.After now = true →
      markScheduled r ∈ (SetupRunnableActions now store).2) ∧
    (∀ r ∈ store, runnableCond now r = false → r ∈ (SetupRunnableActions now store).1) ∧
    (∀ r ∈ store, runnableCond now r = false → r.status ≠ "scheduled" →
      r ∉ (SetupRunnableActions now store).2) := by
  have hstatus : ∀ a ∈ (SetupRunnableActions now store).2, a.status = "scheduled" := by
    intro a ha
    simp only [SetupRunnableActions, List.mem_map] at ha
    rcases ha with ⟨r, _, rfl⟩
    rfl
  refine ⟨hstatus, ?_, ?_, ?_, ?_⟩
  · intro a ha
    simp only [SetupRunnableActions, List.mem_map, List.mem_filter] at ha
    rcases ha with ⟨r, ⟨hr, hc⟩, rfl⟩
    exact ⟨r, hr, (runnableCond_iff now r).mp hc, rfl⟩
  · intro r hr h1 h2 h3
    simp only [SetupRunnableActions, List.mem_map]
    refine ⟨r, ?_, rfl⟩
    simp only [List.mem_filter]
    exact ⟨hr, (runnableCond_iff now r).mpr ⟨h1, h2, h3⟩⟩
  · intro r hr hc
    simp only [SetupRunnableActions]
    have : (if runnableCond now r then markScheduled r else r) = r := by
      rw [if_neg (by simp [hc])]
    exact this ▸ List.mem_map_of_mem _ hr
  · intro r _ hc hs habs
    exact hs (hstatus r habs)

/-- Witness for C4 at a concrete input: the pending in-window sample row
is claimed and returned marked `scheduled`. -/
theorem setupRunnableActions_witness :
    markScheduled runnableRow ∈ (SetupRunnableActions rowNow sampleStore).2 :=
  (setupRunnableActions_spec rowNow sampleStore).2.2.1 runnableRow
    (by simp [sampleStore]) (by decide) (by decide) (by decide)

/-- C8: the claim-runnable step is one atomic SQL statement, so two
processes interleave as two successive atomic steps: the second claim
over the store left by the first returns nothing — hence the two returned
sets are disjoint and their concatenation is exactly the single-process
result. -/
theorem setupRunnableActions_concurrent (now : GoTime) (store : List ActionRow) :
    (SetupRunnableActions now (SetupRunnableActions now store).1).2 = [] ∧
    (SetupRunnableActions now store).2
        ++ (SetupRunnableActions now (SetupRunnableActions now store).1).2
      = (SetupRunnableActions now store).2 := by
  have h : (SetupRunnableActions now (SetupRunnableActions now store).1).2 = [] := by
    simp only [SetupRunnableActions]
    rw [List.map_eq_nil_iff, List.filter_eq_nil_iff]
    intro a ha
    simp only [List.mem_map] at ha
    rcases ha with ⟨r, _, rfl⟩
    by_cases hc : runnableCond now r
    · rw [if_pos hc]
      simp [runnableCond, markScheduled]
    · rw [if_neg hc]
      simpa using hc
  exact ⟨h, by rw [h, List.append_nil]⟩

/-- C9: the heartbeat upload handler persists a heartbeat only when it
passes validation, validation holds exactly when the ten required fields
are non-zero, the reported start time is at most 5 minutes in the past,
the mode is `daemon` or `checkin`, the name is at most 1024 bytes and the
version at most 128 bytes; when validation fails the handler answers
HTTP 400 and persists nothing. -/
theorem heartbeat_upload_gate (hb : Heartbeat) (now : GoTime)
    (authOk persistOk : Heartbeat → Bool) :
    (hb.validateOk now = true ↔
      (hb.Name ≠ "" ∧ hb.Mode ≠ "" ∧ hb.Version ≠ "" ∧ hb.QueueLoc ≠ "" ∧ hb.PID ≠ 0 ∧
       hb.Environment.Init ≠ "" ∧ hb.Environment.Ident ≠ "" ∧ hb.Environment.OS ≠ "" ∧
       hb.Environment.Arch ≠ "" ∧ hb.Environment.PublicIP ≠ "" ∧
       (now.Add (-timeToExpireHeartbeat)).After hb.StartTime = false ∧
       (hb.Mode = "daemon" ∨ hb.Mode = "checkin") ∧
       hb.Name.utf8ByteSize ≤ 1024 ∧ hb.Version.utf8ByteSize ≤ 128)) ∧
    ((ServeHTTP (some hb) authOk persistOk now).2 ≠ none → hb.validateOk now = true) ∧
    (hb.validateOk now = false →
      ServeHTTP (some hb) authOk persistOk now = (400, none)) := by
  refine ⟨?_, ?_, ?_⟩
  · unfold Heartbeat.validateOk
    simp only [Bool.and_eq_true, Bool.not_eq_true', Bool.or_eq_false_iff,
      beq_eq_false_iff_ne, ne_eq, bne, Bool.not_eq_true, decide_eq_false_iff_not,
      not_lt, Bool.and_eq_false_iff, Bool.not_eq_false', beq_iff_eq]
    constructor
    · intro h
      tauto
    · intro h
      tauto
  · intro h
    cases hv : hb.validateOk now with
    | true => rfl
    | false =>
      exfalso
      apply h
      simp [ServeHTTP, hv]
  · intro hv
    simp [ServeHTTP, hv]

/-- Witness for C9 at a concrete input: the heartbeat with an empty name
is rejected with HTTP 400 and nothing is persisted. -/
theorem heartbeat_upload_gate_witness :
    ServeHTTP (some badHeartbeat) acceptAll acceptAll hbNow = (400, none) :=
  (heartbeat_upload_gate badHeartbeat hbNow acceptAll acceptAll).2.2 (by decide)

/-- The counting loop of the manifest verification, when no verification
call errors, returns the number of valid signatures on top of the
accumulator, and no error. -/
theorem countValidSigs_noerr (pgpVerify : String → String → Except String Bool)
    (buf : String) :
    ∀ (sigs : List String) (acc : Nat),
      (∀ s ∈ sigs, ∃ b, pgpVerify buf s = .ok b) →
      countValidSigs pgpVerify buf sigs acc =
        (acc + (sigs.filter (fun s => isOkTrue (pgpVerify buf s))).length, none) := by
  intro sigs
  induction sigs with
  | nil => intro acc _; simp [countValidSigs]
  | cons s rest ih =>
    intro acc h
    rcases h s (by simp) with ⟨b, hb⟩
    have hrest : ∀ x ∈ rest, ∃ c, pgpVerify buf x = .ok c :=
      fun x hx => h x (by simp [hx])
    cases b with
    | true =>
      rw [countValidSigs, hb, ih (acc + 1) hrest]
      have : isOkTrue (pgpVerify buf s) = true := by rw [hb]; rfl
      simp [List.filter_cons, this]
      omega
    | false =>
      rw [countValidSigs, hb, ih acc hrest]
      have : isOkTrue (pgpVerify buf s) = false := by rw [hb]; rfl
      simp [List.filter_cons, this]

/-- C10: `ManifestResponse.VerifySignatures` returns the number of
signatures that verify over the JSON encoding of the response with the
signatures field cleared, and leaves the receiver with an empty
Signatures slice and every other field unchanged. (Stated under the
hypothesis that no verification call errors; on a verification error the
code returns the partial count together with the error.) -/
theorem manifest_verifySignatures_spec (m : ManifestResponse)
    (pgpVerify : String → String → Except String Bool)
    (h : ∀ s ∈ m.Signatures, ∃ b,
      pgpVerify (jsonOfManifestResponse { m with Signatures := [] }) s = .ok b) :
    m.VerifySignatures pgpVerify =
      ({ m with Signatures := [] },
       (m.Signatures.filter (fun s =>
         isOkTrue (pgpVerify (jsonOfManifestResponse { m with Signatures := [] }) s))).length,
       none) := by
  show ({ m with Signatures := [] },
      (countValidSigs pgpVerify (jsonOfManifestResponse { m with Signatures := [] })
        m.Signatures 0).1,
      (countValidSigs pgpVerify (jsonOfManifestResponse { m with Signatures := [] })
        m.Signatures 0).2) = _
  rw [countValidSigs_noerr _ _ _ 0 h]
  simp

/-- Witness for C10 at a concrete input: of the two signatures of the
sample manifest exactly one verifies; the receiver comes back with its
entries intact and its signatures cleared. -/
theorem manifest_verifySignatures_witness :
    sampleManifest.VerifySignatures sampleManifestVerify =
      ({ Entries := some [{ Name := "mig-agent", SHA256 := "ab" }], Signatures := [] },
       1, none) :=
  (manifest_verifySignatures_spec sampleManifest sampleManifestVerify
    (fun s _ => ⟨(s == "g"), rfl⟩)).trans rfl

/-- A fold of counter rows leaves a field untouched when no row carries
the field's status. -/
theorem foldl_counter_frame (f : ActionCounters → Nat) (s₀ : String)
    (hframe : ∀ c row, row.1 ≠ s₀ → f (applyCounterRow c row) = f c) :
    ∀ (rows : List (String × Nat)) (c : ActionCounters),
      s₀ ∉ rows.map Prod.fst → f (List.foldl applyCounterRow c rows) = f c := by
  intro rows
  induction rows with
  | nil => intro c _; rfl
  | cons row rest ih =>
    intro c h
    simp only [List.map_cons, List.mem_cons] at h
    push_neg at h
    rw [List.foldl_cons, ih _ h.2, hframe c row (fun he => h.1 he.symm)]

/-- A fold of counter rows with pairwise distinct statuses sets a field to
the count carried by the row of the field's status. -/
theorem foldl_counter_set (f : ActionCounters → Nat) (s₀ : String)
    (hframe : ∀ c row, row.1 ≠ s₀ → f (applyCounterRow c row) = f c)
    (hset : ∀ c n, f (applyCounterRow c (s₀, n)) = n) :
    ∀ (rows : List (String × Nat)) (c : ActionCounters) (n : Nat),
      (rows.map Prod.fst).Nodup → (s₀, n) ∈ rows →
      f (List.foldl applyCounterRow c rows) = n := by
  intro rows
  induction rows with
  | nil => intro c n _ h; cases h
  | cons row rest ih =>
    intro c n hnd hmem
    simp only [List.map_cons, List.nodup_cons] at hnd
    rcases List.mem_cons.mp hmem with heq | hmem2
    · rw [List.foldl_cons,
        foldl_counter_frame f s₀ hframe rest _ (by rw [← heq] at hnd; exact hnd.1), ← heq]
      exact hset c n
    · have hne : row.1 ≠ s₀ := by
        intro he
        apply hnd.1
        have : s₀ ∈ rest.map Prod.fst := by
          have := List.mem_map_of_mem Prod.fst hmem2
          simpa using this
        rw [he]
        exact this
      rw [List.foldl_cons]
      exact ih _ n hnd.2 hmem2

/-- The statuses of the counter result set are exactly the distinct
statuses of the commands. -/
theorem counterRows_fst (l : List String) :
    (counterRows l).map Prod.fst = l.dedup := by
  simp [counterRows, List.map_map, Function.comp_def]

/-- A status absent from the command list has count zero. -/
theorem countStatus_eq_zero {l : List String} {s : String} (h : s ∉ l) :
    countStatus l s = 0 := by
  unfold countStatus
  rw [List.length_eq_zero, List.filter_eq_nil_iff]
  intro t ht heq
  exact h (beq_iff_eq.mp heq ▸ ht)

/-- Any field of the aggregated counters whose switch case assigns the
row count equals the count of the commands in that status. -/
theorem getCounters_field (f : ActionCounters → Nat) (s₀ : String)
    (hzero : f (ActionCounters.mk 0 0 0 0 0 0 0 0 0) = 0)
    (hframe : ∀ c row, row.1 ≠ s₀ → f (applyCounterRow c row) = f c)
    (hset : ∀ c n, f (applyCounterRow c (s₀, n)) = n)
    (l : List String) :
    f (GetActionCounters l) = countStatus l s₀ := by
  unfold GetActionCounters
  by_cases h : s₀ ∈ l
  · exact foldl_counter_set f s₀ hframe hset (counterRows l) _ (countStatus l s₀)
      (by rw [counterRows_fst]; exact List.nodup_dedup l)
      (List.mem_map_of_mem _ (List.mem_dedup.mpr h))
  · rw [foldl_counter_frame f s₀ hframe (counterRows l) _
      (by rw [counterRows_fst]; exact fun hc => h (List.mem_dedup.mp hc)), hzero,
      countStatus_eq_zero h]

/-- One switch step adds the row count to `Done` exactly when the row
status is terminal. -/
theorem applyCounterRow_done (c : ActionCounters) (row : String × Nat) :
    (applyCounterRow c row).Done
      = c.Done + (if row.1 ∈ terminalStatuses then row.2 else 0) := by
  simp only [terminalStatuses, Finset.mem_insert, Finset.mem_singleton]
  simp only [applyCounterRow]
  split_ifs <;>
    simp_all [StatusSent, StatusSuccess, StatusCancelled, StatusExpired,
      StatusFailed, StatusTimeout]

/-- Folding the counter rows accumulates into `Done` the counts of the
terminal-status rows. -/
theorem foldl_counter_done (rows : List (String × Nat)) :
    ∀ c : ActionCounters,
      (List.foldl applyCounterRow c rows).Done
        = c.Done + (rows.map (fun row =>
            if row.1 ∈ terminalStatuses then row.2 else 0)).sum := by
  induction rows with
  | nil => intro c; simp
  | cons row rest ih =>
    intro c
    rw [List.foldl_cons, ih, applyCounterRow_done, List.map_cons, List.sum_cons,
      Nat.add_assoc]

/-- The summed terminal contributions of the counter result set equal the
sum of the five terminal status counts. -/
theorem sum_terminal_contrib (l : List String) :
    ((counterRows l).map (fun row =>
        if row.1 ∈ terminalStatuses then row.2 else 0)).sum
      = countStatus l StatusSuccess + countStatus l StatusCancelled
        + countStatus l StatusExpired + countStatus l StatusFailed
        + countStatus l StatusTimeout := by
  have h1 : (counterRows l).map (fun row =>
        if row.1 ∈ terminalStatuses then row.2 else 0)
      = l.dedup.map (fun s => if s ∈ terminalStatuses then countStatus l s else 0) := by
    simp [counterRows, List.map_map, Function.comp_def]
  rw [h1, ← List.sum_toFinset _ (List.nodup_dedup l), Finset.sum_ite_mem,
    Finset.inter_comm]
  have h2 : Finset.sum (terminalStatuses ∩ l.dedup.toFinset) (fun s => countStatus l s)
      = Finset.sum terminalStatuses (fun s => countStatus l s) := by
    apply Finset.sum_subset Finset.inter_subset_left
    intro x hx hnx
    apply countStatus_eq_zero
    intro hmem
    exact hnx (Finset.mem_inter.mpr
      ⟨hx, List.mem_toFinset.mpr (List.mem_dedup.mpr hmem)⟩)
  rw [h2]
  show Finset.sum {StatusSuccess, StatusCancelled, StatusExpired, StatusFailed,
    StatusTimeout} (fun s => countStatus l s) = _
  rw [Finset.sum_insert (by decide), Finset.sum_insert (by decide),
    Finset.sum_insert (by decide), Finset.sum_insert (by decide),
    Finset.sum_singleton]
  omega

/-- C5: for every multiset of command statuses of an action, the
aggregated counters satisfy
`done = success + cancelled + expired + failed + timeout`, and each of
the five summands equals the number of commands in the corresponding
terminal status. -/
theorem action_counters_equation (statuses : List String) :
    (GetActionCounters statuses).Done
        = (GetActionCounters statuses).Success + (GetActionCounters statuses).Cancelled
          + (GetActionCounters statuses).Expired + (GetActionCounters statuses).Failed
          + (GetActionCounters statuses).TimeOut ∧
    (GetActionCounters statuses).Success = countStatus statuses StatusSuccess ∧
    (GetActionCounters statuses).Cancelled = countStatus statuses StatusCancelled ∧
    (GetActionCounters statuses).Expired = countStatus statuses StatusExpired ∧
    (GetActionCounters statuses).Failed = countStatus statuses StatusFailed ∧
    (GetActionCounters statuses).TimeOut = countStatus statuses StatusTimeout := by
  have hsuccess : (GetActionCounters statuses).Success
      = countStatus statuses StatusSuccess :=
    getCounters_field (fun c => c.Success) StatusSuccess rfl
      (by
        intro c row h
        simp only [applyCounterRow]
        split_ifs <;> simp_all)
      (by
        intro c n
        simp [applyCounterRow, StatusSent, StatusSuccess])
      statuses
  have hcancelled : (GetActionCounters statuses).Cancelled
      = countStatus statuses StatusCancelled :=
    getCounters_field (fun c => c.Cancelled) StatusCancelled rfl
      (by
        intro c row h
        simp only [applyCounterRow]
        split_ifs <;> simp_all)
      (by
        intro c n
        simp [applyCounterRow, StatusSent, StatusSuccess, StatusCancelled])
      statuses
  have hexpired : (GetActionCounters statuses).Expired
      = countStatus statuses StatusExpired :=
    getCounters_field (fun c => c.Expired) StatusExpired rfl
      (by
        intro c row h
        simp only [applyCounterRow]
        split_ifs <;> simp_all)
      (by
        intro c n
        simp [applyCounterRow, StatusSent, StatusSuccess, StatusCancelled,
          StatusExpired])
      statuses
  have hfailed : (GetActionCounters statuses).Failed
      = countStatus statuses StatusFailed :=
    getCounters_field (fun c => c.Failed) StatusFailed rfl
      (by
        intro c row h
        simp only [applyCounterRow]
        split_ifs <;> simp_all)
      (by
        intro c n
        simp [applyCounterRow, StatusSent, StatusSuccess, StatusCancelled,
          StatusExpired, StatusFailed])
      statuses
  have htimeout : (GetActionCounters statuses).TimeOut
      = countStatus statuses StatusTimeout :=
    getCounters_field (fun c => c.TimeOut) StatusTimeout rfl
      (by
        intro c row h
        simp only [applyCounterRow]
        split_ifs <;> simp_all)
      (by
        intro c n
        simp [applyCounterRow, StatusSent, StatusSuccess, StatusCancelled,
          StatusExpired, StatusFailed, StatusTimeout])
      statuses
  have hdone : (GetActionCounters statuses).Done
      = countStatus statuses StatusSuccess + countStatus statuses StatusCancelled
        + countStatus statuses StatusExpired + countStatus statuses StatusFailed
        + countStatus statuses StatusTimeout := by
    unfold GetActionCounters
    rw [foldl_counter_done]
    rw [sum_terminal_contrib]
    simp
  exact ⟨by rw [hdone, hsuccess, hcancelled, hexpired, hfailed, htimeout],
    hsuccess, hcancelled, hexpired, hfailed, htimeout⟩

/- ===================== C7: deArmor lemmas ===================== -/

/-- A pattern that matches at the very front is found at index 0. -/
theorem findSub_at_front {pat s : Chars} (h : pat <+: s) : findSub pat s = some 0 := by
  cases s with
  | nil =>
    have : pat = ([] : Chars) := List.prefix_nil.mp h
    subst this
    rfl
  | cons x s' =>
    simp [findSub, List.isPrefixOf_iff_prefix, h]

/-- When no occurrence of the pattern starts inside `A`, searching
`A ++ b` finds the pattern where searching `b` does, shifted by the
length of `A`. -/
theorem findSub_append {pat : Chars} (A b : Chars)
    (h : ∀ t, t <:+ A → t ≠ [] → ¬ (pat <+: (t ++ b))) :
    findSub pat (A ++ b) = (findSub pat b).map (· + A.length) := by
  induction A with
  | nil =>
    simp only [List.nil_append, List.length_nil]
    cases findSub pat b <;> simp
  | cons c A' ih =>
    have h' : ∀ t, t <:+ A' → t ≠ [] → ¬ (pat <+: (t ++ b)) :=
      fun t ht hne => h t (ht.trans (List.suffix_cons c A')) hne
    have hno : ¬ (pat.isPrefixOf (c :: (A' ++ b)) = true) := by
      rw [ List.isPrefixOf_iff_prefix]
      have := h (c :: A') (List.suffix_refl _) (by simp)
      simpa using this
    rw [List.cons_append]
    rw [show findSub pat (c :: (A' ++ b))
        = if pat.isPrefixOf (c :: (A' ++ b)) then some 0
          else (findSub pat (A' ++ b)).map (· + 1) from rfl]
    rw [if_neg hno, ih h']
    cases findSub pat b <;> simp [Nat.add_assoc]

/-- A match of the blank-line marker fixes the first two characters. -/
theorem prefix_nn {t : Chars} (h : nnMark <+: t) : ∃ t', t = '\n' :: '\n' :: t' := by
  rcases h with ⟨u, hu⟩
  exact ⟨u, hu.symm⟩

/-- A match of the footer marker fixes the first two characters. -/
theorem prefix_dash {t : Chars} (h : dashMark <+: t) :
    ∃ t', t = '\n' :: '-' :: t' := by
  rcases h with ⟨u, hu⟩
  exact ⟨'-' :: '-' :: '-' :: '-' :: u, hu.symm⟩

/-- The pair at the front of a list is an adjacent pair. -/
theorem hasPair_of_cons {a b : Char} {t : Chars} : hasPair a b (a :: b :: t) = true := by
  simp [hasPair]

/-- Adjacent pairs survive extension on the left. -/
theorem hasPair_suffix {a b : Char} {t s : Chars} (hts : t <:+ s)
    (h : hasPair a b t = true) : hasPair a b s = true := by
  rcases hts with ⟨u, rfl⟩
  induction u with
  | nil => simpa using h
  | cons c u' ih =>
    show hasPair a b (c :: (u' ++ t)) = true
    have hne : u' ++ t ≠ [] := by
      intro he
      rcases List.append_eq_nil.mp he with ⟨_, ht0⟩
      rw [ht0] at h
      simp [hasPair] at h
    obtain ⟨x, X', hX⟩ := List.exists_cons_of_ne_nil hne
    rw [hX]
    rw [hX] at ih
    rw [show hasPair a b (c :: x :: X')
        = ((c == a && x == b) || hasPair a b (x :: X')) from rfl, ih]
    simp

/-- Adjacent pairs survive extension on the right. -/
theorem hasPair_extend_right {a b : Char} : ∀ {t : Chars} (u : Chars),
    hasPair a b t = true → hasPair a b (t ++ u) = true := by
  intro t
  induction t with
  | nil => intro u h; simp [hasPair] at h
  | cons x t' ih =>
    intro u h
    cases t' with
    | nil => simp [hasPair] at h
    | cons y t'' =>
      rw [show hasPair a b (x :: y :: t'')
          = ((x == a && y == b) || hasPair a b (y :: t'')) from rfl] at h
      rw [show (x :: y :: t'') ++ u = x :: y :: (t'' ++ u) from rfl]
      rw [show hasPair a b (x :: y :: (t'' ++ u))
          = ((x == a && y == b) || hasPair a b (y :: (t'' ++ u))) from rfl]
      rw [Bool.or_eq_true] at h
      rcases h with h1 | h2
      · rw [h1]
        simp
      · rw [show (y :: (t'' ++ u)) = (y :: t'') ++ u from rfl, ih u h2]
        simp

/-- The second member of an adjacent pair is a member of the list. -/
theorem hasPair_second_mem {a b : Char} : ∀ {s : Chars}, hasPair a b s = true → b ∈ s := by
  intro s
  induction s with
  | nil => intro h; simp [hasPair] at h
  | cons x s' ih =>
    intro h
    cases s' with
    | nil => simp [hasPair] at h
    | cons y rest =>
      rw [show hasPair a b (x :: y :: rest)
          = ((x == a && y == b) || hasPair a b (y :: rest)) from rfl] at h
      rw [Bool.or_eq_true] at h
      rcases h with h1 | h2
      · simp only [Bool.and_eq_true, beq_iff_eq] at h1
        simp [h1.2]
      · exact List.mem_cons_of_mem x (ih h2)

/-- Elimination of an adjacent pair at a cons. -/
theorem hasPair_cons_elim {a b x : Char} {X : Chars} (h : hasPair a b (x :: X) = true) :
    (x = a ∧ X.head? = some b) ∨ hasPair a b X = true := by
  cases X with
  | nil => simp [hasPair] at h
  | cons y X' =>
    rw [show hasPair a b (x :: y :: X')
        = ((x == a && y == b) || hasPair a b (y :: X')) from rfl] at h
    rw [Bool.or_eq_true] at h
    rcases h with h1 | h2
    · simp only [Bool.and_eq_true, beq_iff_eq] at h1
      exact Or.inl ⟨h1.1, by simp [h1.2]⟩
    · exact Or.inr h2

/-- Decomposition of an adjacent pair over an append. -/
theorem hasPair_append_elim {a b : Char} : ∀ (s t : Chars),
    hasPair a b (s ++ t) = true →
      hasPair a b s = true ∨ (s.getLast? = some a ∧ t.head? = some b) ∨
        hasPair a b t = true := by
  intro s
  induction s with
  | nil =>
    intro t h
    right
    right
    simpa using h
  | cons x s' ih =>
    intro t h
    cases s' with
    | nil =>
      rcases hasPair_cons_elim (by simpa using h) with ⟨hx, hh⟩ | h2
      · right
        left
        simp only [List.getLast?_singleton]
        exact ⟨by rw [hx], hh⟩
      · right
        right
        exact h2
    | cons z s'' =>
      rw [show (x :: z :: s'') ++ t = x :: (z :: s'' ++ t) from rfl] at h
      rcases hasPair_cons_elim h with ⟨hx, hh⟩ | h2
      · left
        have hz : z = b := by
          have : (z :: (s'' ++ t)).head? = some b := hh
          simpa using this
        rw [hx, hz]
        exact hasPair_of_cons
      · rcases ih t h2 with ha | ⟨hl, hr⟩ | hb
        · left
          rw [show hasPair a b (x :: z :: s'')
              = ((x == a && z == b) || hasPair a b (z :: s'')) from rfl, ha]
          simp
        · right
          left
          rw [List.getLast?_cons_cons]
          exact ⟨hl, hr⟩
        · right
          right
          exact hb

/-- An adjacent pair across an append boundary. -/
theorem hasPair_boundary {a b : Char} : ∀ {s t : Chars},
    s.getLast? = some a → t.head? = some b → hasPair a b (s ++ t) = true := by
  intro s
  induction s with
  | nil => intro t h _; simp at h
  | cons x s' ih =>
    intro t hl hh
    cases s' with
    | nil =>
      have hx : x = a := by simpa using hl
      cases t with
      | nil => simp at hh
      | cons y t' =>
        have hy : y = b := by simpa using hh
        rw [show [x] ++ y :: t' = x :: y :: t' from rfl, hx, hy]
        exact hasPair_of_cons
    | cons z s'' =>
      rw [List.getLast?_cons_cons] at hl
      have := ih hl hh
      rw [show (x :: z :: s'') ++ t = x :: ((z :: s'') ++ t) from rfl]
      rcases List.exists_cons_of_ne_nil
        (show (z :: s'') ++ t ≠ [] by simp) with ⟨w, W, hW⟩
      rw [hW]
      rw [hW] at this
      rw [show hasPair a b (x :: w :: W)
          = ((x == a && w == b) || hasPair a b (w :: W)) from rfl, this]
      simp

/-- No occurrence of the blank-line marker starts inside a block that has
no adjacent newline pair and does not end in a newline. -/
theorem nn_no_early (A b : Chars)
    (hA : hasPair '\n' '\n' A = false)
    (hlast : A.getLast? ≠ some '\n') :
    ∀ t, t <:+ A → t ≠ [] → ¬ (nnMark <+: (t ++ b)) := by
  intro t hts hne hpre
  obtain ⟨x, t', rfl⟩ := List.exists_cons_of_ne_nil hne
  rcases prefix_nn hpre with ⟨w, hw⟩
  rw [List.cons_append] at hw
  have hx : x = '\n' := by injection hw
  cases t' with
  | nil =>
    apply hlast
    rcases hts with ⟨u, hu⟩
    rw [← hu, hx]
    exact List.getLast?_concat u
  | cons y t'' =>
    have hy : y = '\n' := by
      have h2 : (y :: t'') ++ b = '\n' :: w := by injection hw
      rw [List.cons_append] at h2
      injection h2
    subst hx
    subst hy
    have := hasPair_suffix hts (hasPair_of_cons (t := t''))
    rw [hA] at this
    exact Bool.false_ne_true this

/-- No occurrence of the footer marker starts inside a block that has no
adjacent newline-dash pair, provided the continuation starts with a
newline. -/
theorem dash_no_early (A b : Chars)
    (hA : hasPair '\n' '-' A = false)
    (hbhead : b.head? = some '\n') :
    ∀ t, t <:+ A → t ≠ [] → ¬ (dashMark <+: (t ++ b)) := by
  intro t hts hne hpre
  obtain ⟨x, t', rfl⟩ := List.exists_cons_of_ne_nil hne
  rcases prefix_dash hpre with ⟨w, hw⟩
  rw [List.cons_append] at hw
  have hx : x = '\n' := by injection hw
  cases t' with
  | nil =>
    have h2 : ([] : Chars) ++ b = '-' :: w := by injection hw
    rw [List.nil_append] at h2
    rw [h2] at hbhead
    simp at hbhead
  | cons y t'' =>
    have hy : y = '-' := by
      have h2 : (y :: t'') ++ b = '-' :: w := by injection hw
      rw [List.cons_append] at h2
      injection h2
    subst hx
    subst hy
    have := hasPair_suffix hts (hasPair_of_cons (t := t''))
    rw [hA] at this
    exact Bool.false_ne_true this

/-- The prefix of the armor up to the blank line has no adjacent newline
pair when the header block is well formed. -/
theorem nn_pair_A_false (hdr' : Chars)
    (hH1 : hasPair '\n' '\n' (hdr' ++ ['\n']) = false)
    (hH2 : (hdr' ++ ['\n']).head? ≠ some '\n') :
    hasPair '\n' '\n' (beginLine ++ '\n' :: hdr') = false := by
  by_contra hcon
  rw [Bool.not_eq_false] at hcon
  rcases hasPair_append_elim beginLine ('\n' :: hdr') hcon with h1 | ⟨h2, _⟩ | h3
  · exact absurd h1 (by decide)
  · exact absurd h2 (by decide)
  · rcases hasPair_cons_elim h3 with ⟨_, hh⟩ | h4
    · apply hH2
      cases hdr' with
      | nil => simp at hh
      | cons z zs =>
        simp only [List.head?_cons] at hh
        simp [hh]
    · apply Bool.false_ne_true
      rw [← hH1]
      exact (hasPair_extend_right ['\n'] h4).symm ▸ rfl

/-- The prefix of the armor up to the footer has no adjacent
newline-dash pair when neither block contains a dash. -/
theorem dash_pair_A2_false (hdr payload : Chars)
    (hH4 : '-' ∉ hdr) (hP : '-' ∉ payload) :
    hasPair '\n' '-' (beginLine ++ '\n' :: (hdr ++ '\n' :: payload)) = false := by
  by_contra hcon
  rw [Bool.not_eq_false] at hcon
  rcases hasPair_append_elim beginLine ('\n' :: (hdr ++ '\n' :: payload)) hcon
    with h1 | ⟨h2, _⟩ | h3
  · exact absurd h1 (by decide)
  · exact absurd h2 (by decide)
  · have hpl : hasPair '\n' '-' ('\n' :: payload) = true → False := by
      intro hp
      rcases hasPair_cons_elim hp with ⟨_, hh⟩ | h5
      · cases payload with
        | nil => simp at hh
        | cons p ps =>
          apply hP
          simp only [List.head?_cons] at hh
          rw [Option.some_inj] at hh
          simp [hh]
      · exact hP (hasPair_second_mem h5)
    rcases hasPair_cons_elim h3 with ⟨_, hh⟩ | h4
    · cases hdr with
      | nil =>
        simp only [List.nil_append, List.head?_cons] at hh
        rw [Option.some_inj] at hh
        exact absurd hh (by decide)
      | cons z zs =>
        apply hH4
        simp only [List.cons_append, List.head?_cons] at hh
        rw [Option.some_inj] at hh
        simp [hh]
    · rcases hasPair_append_elim hdr ('\n' :: payload) h4 with h5 | ⟨_, h6⟩ | h7
      · exact hH4 (hasPair_second_mem h5)
      · simp only [List.head?_cons] at h6
        rw [Option.some_inj] at h6
        exact absurd h6 (by decide)
      · exact hpl h7

/-- The first blank line of a well-formed armored signature sits right
after the header block. -/
theorem findSub_nn_armored (hdr payload : Chars)
    (hH1 : hasPair '\n' '\n' hdr = false)
    (hH2 : hdr.head? ≠ some '\n')
    (hH3 : hdr = [] ∨ hdr.getLast? = some '\n') :
    findSub nnMark (armoredSig hdr payload)
      = some (beginLine.length + hdr.length) := by
  rcases hH3 with hnil | hlast
  · subst hnil
    have harm : armoredSig [] payload
        = beginLine ++ (nnMark ++ (payload ++ (dashMark ++ "END PGP SIGNATURE-----\n".toList))) := by
      simp [armoredSig, nnMark, List.append_assoc]
    rw [harm,
      findSub_append beginLine _ (nn_no_early beginLine _ (by decide) (by decide)),
      findSub_at_front (List.prefix_append nnMark _)]
    simp
  · rcases List.getLast?_eq_some_iff.mp hlast with ⟨hdr', rfl⟩
    have harm : armoredSig (hdr' ++ ['\n']) payload
        = (beginLine ++ '\n' :: hdr')
          ++ (nnMark ++ (payload ++ (dashMark ++ "END PGP SIGNATURE-----\n".toList))) := by
      simp [armoredSig, nnMark, List.append_assoc]
    have hA : hasPair '\n' '\n' (beginLine ++ '\n' :: hdr') = false :=
      nn_pair_A_false hdr' hH1 hH2
    have hAlast : (beginLine ++ '\n' :: hdr').getLast? ≠ some '\n' := by
      intro hcon
      rw [List.getLast?_append] at hcon
      cases hdr'e : hdr' with
      | nil =>
        rw [hdr'e] at hH2
        exact hH2 (by simp)
      | cons z zs =>
        rw [hdr'e] at hcon
        simp only [List.getLast?_cons_cons, Option.or] at hcon
        have hz : (z :: zs).getLast? = some '\n' := by
          cases hzz : (z :: zs).getLast? with
          | none => simp at hzz
          | some c =>
            rw [hzz] at hcon
            simpa using hcon
        apply Bool.false_ne_true
        rw [← hH1, hdr'e]
        exact hasPair_boundary hz rfl
    rw [harm,
      findSub_append _ _ (nn_no_early _ _ hA hAlast),
      findSub_at_front (List.prefix_append nnMark _)]
    simp only [Option.map_some', Option.some.injEq, List.length_append,
      List.length_cons, List.length_nil]
    omega

/-- The first footer marker of a well-formed armored signature sits right
after the payload. -/
theorem findSub_dash_armored (hdr payload : Chars)
    (hH4 : '-' ∉ hdr) (hP : '-' ∉ payload) :
    findSub dashMark (armoredSig hdr payload)
      = some (beginLine.length + 1 + hdr.length + 1 + payload.length) := by
  have harm : armoredSig hdr payload
      = (beginLine ++ '\n' :: (hdr ++ '\n' :: payload))
        ++ (dashMark ++ "END PGP SIGNATURE-----\n".toList) := by
    simp [armoredSig, List.append_assoc]
  rw [harm,
    findSub_append _ _ (dash_no_early _
      (dashMark ++ "END PGP SIGNATURE-----\n".toList)
      (dash_pair_A2_false hdr payload hH4 hP) rfl),
    findSub_at_front (List.prefix_append dashMark _)]
  simp only [Option.map_some', Option.some.injEq, List.length_append,
    List.length_cons, List.length_nil]
  omega

/-- C7: for a well-formed armored detached signature (a header block of
newline-terminated lines without blank lines or dashes, and a dash-free
base64 payload), `Sign` returns exactly the inner payload with every
newline removed, hence a single-line token; and `deArmor` errors on any
input lacking the blank-line or footer marker. -/
theorem sign_single_line_token (hdr payload : Chars)
    (hH1 : hasPair '\n' '\n' hdr = false)
    (hH2 : hdr.head? ≠ some '\n')
    (hH3 : hdr = [] ∨ hdr.getLast? = some '\n')
    (hH4 : '-' ∉ hdr)
    (hP : '-' ∉ payload) :
    Sign (armoredSig hdr payload) = .ok (payload.filter (fun c => c ≠ '\n')) ∧
    (∀ s r, deArmor s = .ok r → '\n' ∉ r) ∧
    (∀ s, findSub nnMark s = none ∨ findSub dashMark s = none →
      ∃ e, deArmor s = .error e) := by
  refine ⟨?_, ?_, ?_⟩
  · unfold Sign deArmor
    rw [findSub_nn_armored hdr payload hH1 hH2 hH3,
      findSub_dash_armored hdr payload hH4 hP]
    have hslice : ((armoredSig hdr payload).drop (beginLine.length + hdr.length + 2)).take
        (beginLine.length + 1 + hdr.length + 1 + payload.length
          - (beginLine.length + hdr.length + 2)) = payload := by
      have harm : armoredSig hdr payload
          = (beginLine ++ '\n' :: hdr ++ ['\n'])
            ++ (payload ++ (dashMark ++ "END PGP SIGNATURE-----\n".toList)) := by
        simp [armoredSig, List.append_assoc]
      have hlen1 : (beginLine ++ '\n' :: hdr ++ ['\n']).length
          = beginLine.length + hdr.length + 2 := by
        simp only [List.length_append, List.length_cons, List.length_nil]
        omega
      have hlen2 : payload.length
          = beginLine.length + 1 + hdr.length + 1 + payload.length
            - (beginLine.length + hdr.length + 2) := by
        omega
      rw [harm, List.drop_left' hlen1, ← hlen2, List.take_left]
    exact congrArg Except.ok
      (congrArg (List.filter (fun c => decide (c ≠ '\n'))) hslice)
  · intro s r h
    unfold deArmor at h
    cases h1 : findSub nnMark s with
    | none => rw [h1] at h; simp at h
    | some i1 =>
      cases h2 : findSub dashMark s with
      | none => rw [h1, h2] at h; simp at h
      | some i2 =>
        rw [h1, h2] at h
        simp only [Except.ok.injEq] at h
        subst h
        intro hmem
        have := List.of_mem_filter hmem
        simp at this
  · intro s h
    unfold deArmor
    rcases h with h | h
    · rw [h]
      exact ⟨_, rfl⟩
    · rw [h]
      cases findSub nnMark s <;> exact ⟨_, rfl⟩

/-- Witness for C7 at a concrete input: a one-header armored signature
with a two-line base64 payload and CRC line de-armors to the single-line
token. -/
theorem sign_single_line_token_witness :
    Sign (armoredSig c7hdr c7payload) = .ok ("QUJDRARUZH=abcd".toList) :=
  ((sign_single_line_token c7hdr c7payload (by decide) (by decide)
    (Or.inr (by decide)) (by decide) (by decide)).1).trans (by rfl)

end Mig
